import Mathlib

/-!
Shallow embedding of the route-recommendation model (`src/model.py`) and
verification of the frozen claims about it.

Conventions of the embedding:
* Coordinates are pairs of rationals (exact arithmetic in place of floats).
* The geodesic distance of the `geopy` library is an abstract parameter
  `gd : Coor → Coor → ℚ` of every function that uses it; concrete witnesses
  instantiate it with a computable function.
* The polyline codec (external `polyline` library) is modelled from the spec:
  an encoded string is represented by its information content, the coordinate
  list quantised to the codec precision of 1e-5 degrees; `polyEncode`
  quantises, `polyDecode` reads the stored coordinates back.
* The external gateways (segment discovery, distance matrix, directions) are
  oracle functions collected in a `Gateways` structure; exceptions raised by
  the Python code are modelled with `Except`.
-/

namespace RouteRec

/-- A coordinate: (latitude, longitude) as exact rationals. -/
abbrev Coor := ℚ × ℚ

/-- Modelled from the spec: the polyline codec quantises each coordinate to
1e-5 degrees (the codec precision named in the spec's round-trip contract). -/
def quant5 (x : ℚ) : ℚ := (round (x * 100000) : ℤ) / 100000

/-- Quantise both components of a coordinate. -/
def quantC (c : Coor) : Coor := (quant5 c.1, quant5 c.2)

/-- Modelled from the spec: the information content of an encoded polyline
string — the quantised coordinate sequence it decodes to.  The external
`polyline` library itself is not part of the repository; the spec specifies
the codec only through its lossless-to-precision round-trip contract. -/
structure Poly where
  coords : List Coor
deriving DecidableEq, Repr

/-- Modelled from the spec: `polyline.encode` — quantise every coordinate to
the codec precision and pack the result. -/
def polyEncode (l : List Coor) : Poly := ⟨l.map quantC⟩

/-- Modelled from the spec: `polyline.decode` — read the stored (already
quantised) coordinates back. -/
def polyDecode (p : Poly) : List Coor := p.coords

/-- A raw segment record of the catalog (`segment` dict of the Strava
response): start coordinate, encoded path, length in meters and the other
metadata fields (folded into a number, only compared for equality). -/
structure Seg where
  start_latlng : Coor
  points : Poly
  distance : ℚ
  meta : ℕ
deriving DecidableEq, Repr

/-- The `Route` dataclass of `src/model.py`. -/
structure Route where
  polyline : Poly
  length : ℚ
  details : Option Seg := none
  closest_point : Coor := (0, 0)
  straight_line_distance : ℚ := -1
  google_route_distance : ℚ := -1
deriving DecidableEq, Repr

/-- Errors corresponding to the Python exceptions the model can raise:
a failed gateway call, an out-of-range index (`[0]` on an empty list),
a geometry error (`LineString`/`min` on too few points) and a value error
(`list.remove` of an absent element). -/
inductive Err where
  | gateway
  | index
  | geometry
  | value
deriving DecidableEq, Repr

/-- The configuration fields of the `RouteFinder` dataclass that the
algorithm reads. -/
structure Params where
  init_cor : Coor
  ideal_distance : ℚ
  init_diag_distance : ℚ := 20
  k : ℕ := 3
  downsample : ℕ := 1
deriving DecidableEq, Repr

/-- The external gateways, as oracle functions:
* `auth`: whether the token refresh succeeds;
* `discover center diag`: the segment-explore call — `Except.error` for a
  non-200 response, `Except.ok none` for a 200 response whose JSON is `None`,
  `Except.ok (some segs)` for a successful batch;
* `walkDist origin dest`: the distance-matrix call, the distance value in
  meters, `none` when the response lacks it;
* `walkRoute origin dest`: the directions call, overview polyline and leg
  distance in meters, `none` on failure. -/
structure Gateways where
  auth : Bool
  discover : Coor → ℚ → Except Unit (Option (List Seg))
  walkDist : Coor → Coor → Option ℚ
  walkRoute : Coor → Coor → Option (Poly × ℚ)

/-- Summed pairwise distance over consecutive points of a path, under the
distance function `gd`. -/
def pathLen (gd : Coor → Coor → ℚ) : List Coor → ℚ
  | a :: b :: rest => gd a b + pathLen gd (b :: rest)
  | _ => 0

/-- The accumulation loop of `RouteFinder.trim_route`: starting from the
running total `acc`, walk consecutive pairs while `acc < d` and pairs remain;
return the number of accumulated segments (the final value of `i`) and the
final running total. -/
def trimPairs (gd : Coor → Coor → ℚ) (d : ℚ) (acc : ℚ) : List Coor → ℕ × ℚ
  | a :: b :: rest =>
    if acc < d then
      let res := trimPairs gd d (acc + gd a b) (b :: rest)
      (res.1 + 1, res.2)
    else (0, acc)
  | _ => (0, acc)

/-- `RouteFinder.trim_route`: decode the polyline, accumulate geodesic
distance over consecutive points while the total is below `d`, and return
`points[:i]` together with the accumulated total. -/
def trim_route (gd : Coor → Coor → ℚ) (p : Poly) (d : ℚ) : List Coor × ℚ :=
  let points := polyDecode p
  let res := trimPairs gd d 0 points
  (points.take res.1, res.2)

/-- `RouteFinder.trim_and_complete`: trim the result route to half the ideal
distance, append the reversed trimmed path, re-encode, and record twice the
trimmed distance as the length. -/
def trim_and_complete (gd : Coor → Coor → ℚ) (ideal : ℚ) (result : Route) : Route :=
  let tr := trim_route gd result.polyline (ideal / 2)
  { polyline := polyEncode (tr.1 ++ tr.1.reverse), length := tr.2 * 2 }

/-- A concrete computable stand-in for the geodesic distance, used by the
witnesses and counterexamples: the taxicab distance. -/
def taxi (a b : Coor) : ℚ := |b.1 - a.1| + |b.2 - a.2|

theorem pathLen_nonneg (gd : Coor → Coor → ℚ) (hnn : ∀ a b, 0 ≤ gd a b) :
    ∀ l : List Coor, 0 ≤ pathLen gd l
  | [] => le_of_eq rfl
  | [_] => le_of_eq rfl
  | a :: b :: rest => by
    have h1 := pathLen_nonneg gd hnn (b :: rest)
    have h2 := hnn a b
    simp only [pathLen]
    linarith

theorem trimPairs_snd (gd : Coor → Coor → ℚ) (d : ℚ) :
    ∀ (pts : List Coor) (acc : ℚ),
      (trimPairs gd d acc pts).2 =
        acc + pathLen gd (pts.take ((trimPairs gd d acc pts).1 + 1))
  | [], acc => by simp [trimPairs, pathLen]
  | [a], acc => by simp [trimPairs, pathLen]
  | a :: b :: rest, acc => by
    by_cases hlt : acc < d
    · have ih := trimPairs_snd gd d (b :: rest) (acc + gd a b)
      simp only [trimPairs, if_pos hlt]
      rcases hr : trimPairs gd d (acc + gd a b) (b :: rest) with ⟨i, t⟩
      rw [hr] at ih
      simp only at ih ⊢
      rw [List.take_succ_cons, List.take_succ_cons, pathLen]
      rw [List.take_succ_cons] at ih
      linarith
    · simp [trimPairs, if_neg hlt, pathLen]

theorem trimPairs_stop (gd : Coor → Coor → ℚ) (d : ℚ) :
    ∀ (pts : List Coor) (acc : ℚ),
      d ≤ (trimPairs gd d acc pts).2 ∨ (trimPairs gd d acc pts).1 = pts.length - 1
  | [], acc => by
    by_cases h : d ≤ acc
    · exact Or.inl (by simpa [trimPairs] using h)
    · exact Or.inr (by simp [trimPairs])
  | [a], acc => by
    by_cases h : d ≤ acc
    · exact Or.inl (by simpa [trimPairs] using h)
    · exact Or.inr (by simp [trimPairs])
  | a :: b :: rest, acc => by
    by_cases hlt : acc < d
    · have ih := trimPairs_stop gd d (b :: rest) (acc + gd a b)
      simp only [trimPairs, if_pos hlt]
      rcases hr : trimPairs gd d (acc + gd a b) (b :: rest) with ⟨i, t⟩
      rw [hr] at ih
      rcases ih with h | h
      · exact Or.inl h
      · refine Or.inr ?_
        simp only at h ⊢
        simp only [List.length_cons] at h ⊢
        omega
    · exact Or.inl (by simp [trimPairs, if_neg hlt]; linarith)

theorem trimPairs_exhaust (gd : Coor → Coor → ℚ) (d : ℚ) (hnn : ∀ a b, 0 ≤ gd a b) :
    ∀ (pts : List Coor) (acc : ℚ), acc + pathLen gd pts < d →
      trimPairs gd d acc pts = (pts.length - 1, acc + pathLen gd pts)
  | [], acc, h => by simp only [pathLen] at h; simp [trimPairs, pathLen]
  | [a], acc, h => by simp only [pathLen] at h; simp [trimPairs, pathLen]
  | a :: b :: rest, acc, h => by
    have hrest : 0 ≤ pathLen gd (b :: rest) := pathLen_nonneg gd hnn _
    have hab := hnn a b
    simp only [pathLen] at h
    have hlt : acc < d := by linarith
    have ih := trimPairs_exhaust gd d hnn (b :: rest) (acc + gd a b) (by linarith)
    simp only [trimPairs, if_pos hlt, ih, List.length_cons, pathLen]
    rw [Prod.mk.injEq]
    exact ⟨by omega, by ring⟩

theorem trim_route_full (gd : Coor → Coor → ℚ) (p : Poly) (d : ℚ) :
    (trimPairs gd d 0 (polyDecode p)).1 = (polyDecode p).length - 1 →
      (trim_route gd p d).2 = pathLen gd (polyDecode p) := by
  intro h
  have hs := trimPairs_snd gd d (polyDecode p) 0
  rcases hp : polyDecode p with _ | ⟨a, rest⟩
  · rw [hp] at hs h
    simp only [trim_route, hp]
    simpa [pathLen] using hs
  · rw [hp] at hs h
    simp only [List.length_cons] at h
    simp only [trim_route, hp, hs, h]
    rw [show rest.length + 1 - 1 + 1 = (a :: rest).length from by simp]
    rw [List.take_length]
    simp

/-- C4 (amended): if the decoded path's total geodesic length is below `d`
then the trimmed distance is that total length and the returned path keeps
all points except the final one; otherwise the trimmed distance is at least
`d`. -/
theorem C4_trim_bound (gd : Coor → Coor → ℚ) (p : Poly) (d : ℚ)
    (hnn : ∀ a b, 0 ≤ gd a b) :
    (pathLen gd (polyDecode p) < d →
      trim_route gd p d =
        ((polyDecode p).take ((polyDecode p).length - 1), pathLen gd (polyDecode p))) ∧
    (d ≤ pathLen gd (polyDecode p) → d ≤ (trim_route gd p d).2) := by
  constructor
  · intro h
    have he := trimPairs_exhaust gd d hnn (polyDecode p) 0 (by linarith)
    simp [trim_route, he]
  · intro h
    rcases trimPairs_stop gd d (polyDecode p) 0 with hstop | hfull
    · simpa [trim_route] using hstop
    · rw [trim_route_full gd p d hfull]
      exact h

/-- C4 witness: a concrete two-point path of total length 1 trimmed to
distance 5 keeps only the first point and reports the total length 1. -/
theorem C4_trim_bound_witness :
    (pathLen taxi (polyDecode ⟨[((0:ℚ), (0:ℚ)), (0, 1)]⟩) < 5 →
      trim_route taxi ⟨[((0:ℚ), (0:ℚ)), (0, 1)]⟩ 5 =
        ((polyDecode ⟨[((0:ℚ), (0:ℚ)), (0, 1)]⟩).take
            ((polyDecode ⟨[((0:ℚ), (0:ℚ)), (0, 1)]⟩).length - 1),
          pathLen taxi (polyDecode ⟨[((0:ℚ), (0:ℚ)), (0, 1)]⟩))) ∧
    (5 ≤ pathLen taxi (polyDecode ⟨[((0:ℚ), (0:ℚ)), (0, 1)]⟩) →
      5 ≤ (trim_route taxi ⟨[((0:ℚ), (0:ℚ)), (0, 1)]⟩ 5).2) :=
  C4_trim_bound taxi ⟨[((0:ℚ), (0:ℚ)), (0, 1)]⟩ 5
    (fun a b => add_nonneg (abs_nonneg _) (abs_nonneg _))

/-- C4 counterexample: on the two-point path of total length 1 with target 5,
the code keeps only the first point — the full path is not kept even though
its total length is below the target. -/
theorem C4_counterexample :
    trim_route taxi ⟨[((0:ℚ), (0:ℚ)), (0, 1)]⟩ 5 = ([(0, 0)], 1) ∧
    pathLen taxi (polyDecode ⟨[((0:ℚ), (0:ℚ)), (0, 1)]⟩) < 5 ∧
    (trim_route taxi ⟨[((0:ℚ), (0:ℚ)), (0, 1)]⟩ 5).1 ≠
      polyDecode ⟨[((0:ℚ), (0:ℚ)), (0, 1)]⟩ := by
  refine ⟨?_, ?_, ?_⟩ <;> norm_num [trim_route, trimPairs, polyDecode, pathLen, taxi, List.take]

/-- C5 (amended): the trim walk accumulates `i` pair distances, stopping as
soon as the running total reaches `d` or the pairs are exhausted, but returns
`points.take i` — excluding the far endpoint of the last accumulated pair —
so the returned total equals the summed distance over `points.take (i + 1)`,
not over the returned truncated path. -/
theorem C5_trim_walk (gd : Coor → Coor → ℚ) (p : Poly) (d : ℚ) :
    (trim_route gd p d).1 = (polyDecode p).take (trimPairs gd d 0 (polyDecode p)).1 ∧
    (trim_route gd p d).2 =
      pathLen gd ((polyDecode p).take ((trimPairs gd d 0 (polyDecode p)).1 + 1)) ∧
    (d ≤ (trim_route gd p d).2 ∨
      (trimPairs gd d 0 (polyDecode p)).1 = (polyDecode p).length - 1) := by
  refine ⟨rfl, ?_, ?_⟩
  · simpa [trim_route] using trimPairs_snd gd d (polyDecode p) 0
  · simpa [trim_route] using trimPairs_stop gd d (polyDecode p) 0

/-- C5 counterexample: on a three-point path with pair distances 1 and 1 and
target 3/2, the walk consumes both pairs (total 2) but returns only the first
two points, whose own summed distance is 1 ≠ 2. -/
theorem C5_counterexample :
    trim_route taxi ⟨[((0:ℚ), (0:ℚ)), (0, 1), (0, 2)]⟩ (3/2) = ([(0, 0), (0, 1)], 2) ∧
    (trim_route taxi ⟨[((0:ℚ), (0:ℚ)), (0, 1), (0, 2)]⟩ (3/2)).2 ≠
      pathLen taxi (trim_route taxi ⟨[((0:ℚ), (0:ℚ)), (0, 1), (0, 2)]⟩ (3/2)).1 := by
  refine ⟨?_, ?_⟩ <;> norm_num [trim_route, trimPairs, polyDecode, pathLen, taxi, List.take]

/-- C6: the finalized route's decoded path splits at its midpoint into a
first half and the reverse of that half, and the finalized length is exactly
twice the trimmed distance. -/
theorem C6_mirror (gd : Coor → Coor → ℚ) (ideal : ℚ) (r : Route) :
    ((polyDecode (trim_and_complete gd ideal r).polyline).drop
        ((polyDecode (trim_and_complete gd ideal r).polyline).length / 2) =
      ((polyDecode (trim_and_complete gd ideal r).polyline).take
        ((polyDecode (trim_and_complete gd ideal r).polyline).length / 2)).reverse) ∧
    (polyDecode (trim_and_complete gd ideal r).polyline).length =
      2 * ((polyDecode (trim_and_complete gd ideal r).polyline).length / 2) ∧
    (trim_and_complete gd ideal r).length =
      2 * (trim_route gd r.polyline (ideal / 2)).2 := by
  have hdec :
      polyDecode (trim_and_complete gd ideal r).polyline =
        ((trim_route gd r.polyline (ideal / 2)).1.map quantC) ++
          ((trim_route gd r.polyline (ideal / 2)).1.map quantC).reverse := by
    simp [trim_and_complete, polyEncode, polyDecode, List.map_reverse]
  have hlen : (polyDecode (trim_and_complete gd ideal r).polyline).length =
      2 * ((trim_route gd r.polyline (ideal / 2)).1.map quantC).length := by
    rw [hdec]; simp [two_mul]
  refine ⟨?_, ?_, ?_⟩
  · rw [hlen, Nat.mul_div_cancel_left _ (by norm_num), hdec,
      List.take_left, List.drop_left]
  · rw [hlen, Nat.mul_div_cancel_left _ (by norm_num)]
  · simp only [trim_and_complete]
    ring

/-- Squared planar (Euclidean) distance between two coordinates: the square
of the shapely `Point.distance`, and the squared `LineString` length of the
two-point line. -/
def sqDist (p q : Coor) : ℚ := (p.1 - q.1) ^ 2 + (p.2 - q.2) ^ 2

/-- `RouteFinder.get_closest_point_on_line`: the closest point on the closed
segment from `start` to `endp` to the point `p`, computed exactly as in the
source: the squared segment length guards the degenerate case, then the
scalar projection parameter is compared with 0 and 1. -/
def get_closest_point_on_line (start endp p : Coor) : Coor :=
  let len2 := sqDist start endp
  if len2 = 0 then start
  else
    let v1 := endp.1 - start.1
    let v2 := endp.2 - start.2
    let param := ((p.1 - start.1) * v1 + (p.2 - start.2) * v2) / len2
    if param < 0 then start
    else if 1 < param then endp
    else (start.1 + param * v1, start.2 + param * v2)

/-- The scalar projection parameter `t = dot(p-a, b-a) / |b-a|^2` of the
source, as a standalone definition for stating the claim. -/
def tParam (a b p : Coor) : ℚ :=
  ((p.1 - a.1) * (b.1 - a.1) + (p.2 - a.2) * (b.2 - a.2)) / sqDist a b

/-- Interpolation `a + t·(b-a)` along the segment from `a` to `b`. -/
def lerpPt (a b : Coor) (t : ℚ) : Coor :=
  (a.1 + t * (b.1 - a.1), a.2 + t * (b.2 - a.2))

/-- Python's stride slicing `l[::r]` for `r ≥ 1`: every `r`-th element,
starting with the first. -/
def strided (r : ℕ) : List α → List α
  | [] => []
  | a :: rest => a :: strided r (rest.drop (r - 1))
termination_by l => l.length
decreasing_by simp only [List.length_cons, List.length_drop]; omega

/-- Python's `min(..., key=lambda t: t[1])` over a nonempty list, seeded with
the first element: later elements replace the current best only when strictly
smaller, so ties keep the earliest element. -/
def minBySnd (x : α × ℚ) : List (α × ℚ) → α × ℚ
  | [] => x
  | y :: ys => if y.2 < x.2 then minBySnd y ys else minBySnd x ys

/-- The comprehension inside `RouteFinder.get_closest_point_on_path`: for
each consecutive pair of the (already strided) coordinate list, the projected
point on that pair paired with the squared planar distance from `p` to the
pair's second endpoint. -/
def closePoints (p : Coor) (coords : List Coor) : List (Coor × ℚ) :=
  (coords.zip coords.tail).map fun cn => (get_closest_point_on_line cn.1 cn.2 p, sqDist p cn.2)

/-- `RouteFinder.get_closest_point_on_path`: build the `LineString` (fails on
fewer than two points), stride the coordinates by the downsample factor, and
take the minimum of `closePoints` by squared distance (fails when no pair is
left). -/
def get_closest_point_on_path (p : Coor) (r : ℕ) (path : List Coor) : Option (Coor × ℚ) :=
  if path.length < 2 then none
  else
    match closePoints p (strided r path) with
    | [] => none
    | c :: rest => some (minBySnd c rest)

theorem sqDist_eq_zero (a b : Coor) : sqDist a b = 0 ↔ a = b := by
  constructor
  · intro h
    simp only [sqDist] at h
    have h1 : (a.1 - b.1) ^ 2 = 0 := by
      nlinarith [sq_nonneg (a.1 - b.1), sq_nonneg (a.2 - b.2)]
    have h2 : (a.2 - b.2) ^ 2 = 0 := by
      nlinarith [sq_nonneg (a.1 - b.1), sq_nonneg (a.2 - b.2)]
    have e1 : a.1 - b.1 = 0 := by
      have := sq_eq_zero_iff.mp h1
      exact this
    have e2 : a.2 - b.2 = 0 := sq_eq_zero_iff.mp h2
    exact Prod.ext_iff.mpr ⟨by linarith, by linarith⟩
  · rintro rfl
    simp [sqDist]

/-- C7: the point-to-segment projection returns `a` on a degenerate segment,
clamps the projection parameter to the endpoints, and in the interior case
returns the interpolated point, which lies on the segment and is at least as
close to `p` as either endpoint. -/
theorem C7_projection (a b p : Coor) :
    (a = b → get_closest_point_on_line a b p = a) ∧
    (a ≠ b →
      (tParam a b p < 0 → get_closest_point_on_line a b p = a) ∧
      (1 < tParam a b p → get_closest_point_on_line a b p = b) ∧
      (0 ≤ tParam a b p → tParam a b p ≤ 1 →
        get_closest_point_on_line a b p = lerpPt a b (tParam a b p) ∧
        (∃ u, 0 ≤ u ∧ u ≤ 1 ∧ get_closest_point_on_line a b p = lerpPt a b u) ∧
        sqDist (get_closest_point_on_line a b p) p ≤ sqDist a p ∧
        sqDist (get_closest_point_on_line a b p) p ≤ sqDist b p)) := by
  constructor
  · rintro rfl
    simp [get_closest_point_on_line, sqDist]
  · intro hab
    have hL : sqDist a b ≠ 0 := fun h => hab ((sqDist_eq_zero a b).mp h)
    have hLpos : 0 < sqDist a b := by
      rcases lt_or_eq_of_le (show 0 ≤ sqDist a b by simp only [sqDist]; positivity) with h | h
      · exact h
      · exact absurd h.symm hL
    have hf : get_closest_point_on_line a b p =
        (if tParam a b p < 0 then a
         else if 1 < tParam a b p then b
         else lerpPt a b (tParam a b p)) := by
      simp only [get_closest_point_on_line, tParam, lerpPt]
      rw [if_neg hL]
    refine ⟨?_, ?_, ?_⟩
    · intro ht
      rw [hf, if_pos ht]
    · intro ht
      rw [hf, if_neg (by linarith), if_pos ht]
    · intro h0 h1
      rw [hf, if_neg (not_lt.mpr h0), if_neg (not_lt.mpr h1)]
      have hdot : tParam a b p * sqDist a b =
          (p.1 - a.1) * (b.1 - a.1) + (p.2 - a.2) * (b.2 - a.2) :=
        div_mul_cancel₀ _ hL
      have key1 : sqDist (lerpPt a b (tParam a b p)) p =
          sqDist a p - tParam a b p ^ 2 * sqDist a b := by
        simp only [lerpPt, sqDist] at hdot ⊢
        linear_combination (2 * tParam a b p) * hdot
      have key2 : sqDist (lerpPt a b (tParam a b p)) p =
          sqDist b p - (1 - tParam a b p) ^ 2 * sqDist a b := by
        simp only [lerpPt, sqDist] at hdot ⊢
        linear_combination (2 * tParam a b p - 2) * hdot
      refine ⟨rfl, ⟨tParam a b p, h0, h1, rfl⟩, ?_, ?_⟩
      · rw [key1]
        nlinarith [mul_nonneg (sq_nonneg (tParam a b p)) hLpos.le]
      · rw [key2]
        nlinarith [mul_nonneg (sq_nonneg (1 - tParam a b p)) hLpos.le]

/-- C7 witness: for the segment from (0,0) to (2,0) and the point (1,1) the
projection parameter is 1/2, interior, so the projection is the interpolated
point and is no farther from (1,1) than either endpoint. -/
theorem C7_projection_witness :
    get_closest_point_on_line ((0 : ℚ), (0 : ℚ)) (2, 0) (1, 1) =
      lerpPt (0, 0) (2, 0) (tParam (0, 0) (2, 0) (1, 1)) ∧
    sqDist (get_closest_point_on_line ((0 : ℚ), (0 : ℚ)) (2, 0) (1, 1)) (1, 1) ≤
      sqDist (0, 0) (1, 1) ∧
    sqDist (get_closest_point_on_line ((0 : ℚ), (0 : ℚ)) (2, 0) (1, 1)) (1, 1) ≤
      sqDist (2, 0) (1, 1) := by
  have T := ((C7_projection ((0 : ℚ), (0 : ℚ)) (2, 0) (1, 1)).2
      (by norm_num [Prod.ext_iff])).2.2
    (by norm_num [tParam, sqDist]) (by norm_num [tParam, sqDist])
  exact ⟨T.1, T.2.2.1, T.2.2.2⟩

theorem minBySnd_le {α : Type _} :
    ∀ (l : List (α × ℚ)) (x : α × ℚ), ∀ q ∈ x :: l, (minBySnd x l).2 ≤ q.2
  | [], x => by simp [minBySnd]
  | y :: ys, x => by
    intro q hq
    rcases List.mem_cons.mp hq with rfl | hq2
    · simp only [minBySnd]
      split
      · have h1 := minBySnd_le ys y y (by simp)
        next h => linarith
      · exact minBySnd_le ys q q (by simp)
    · rcases List.mem_cons.mp hq2 with rfl | hq3
      · simp only [minBySnd]
        split
        · exact minBySnd_le ys q q (by simp)
        · have h1 := minBySnd_le ys x x (by simp)
          next h => linarith [not_lt.mp h]
      · simp only [minBySnd]
        split
        · exact minBySnd_le ys y q (List.mem_cons_of_mem y hq3)
        · exact minBySnd_le ys x q (List.mem_cons_of_mem x hq3)

theorem minBySnd_mem {α : Type _} :
    ∀ (l : List (α × ℚ)) (x : α × ℚ), minBySnd x l ∈ x :: l
  | [], x => by simp [minBySnd]
  | y :: ys, x => by
    simp only [minBySnd]
    split
    · exact List.mem_cons_of_mem x (minBySnd_mem ys y)
    · rcases List.mem_cons.mp (minBySnd_mem ys x) with h | h
      · rw [h]
        exact List.mem_cons_self x _
      · exact List.mem_cons_of_mem x (List.mem_cons_of_mem y h)

theorem minBySnd_find {α : Type _} :
    ∀ (l : List (α × ℚ)) (x : α × ℚ),
      List.find? (fun q => decide (q.2 ≤ (minBySnd x l).2)) (x :: l) =
        some (minBySnd x l)
  | [], x => by simp [minBySnd]
  | y :: ys, x => by
    simp only [minBySnd]
    split
    · next h =>
      have hm : (minBySnd y ys).2 ≤ y.2 := minBySnd_le ys y y (by simp)
      have hx : ¬ (x.2 ≤ (minBySnd y ys).2) := by linarith
      rw [List.find?_cons_of_neg _ (by simpa using hx)]
      exact minBySnd_find ys y
    · next h =>
      have hxy : x.2 ≤ y.2 := not_lt.mp h
      have ih := minBySnd_find ys x
      by_cases hx : x.2 ≤ (minBySnd x ys).2
      · rw [List.find?_cons_of_pos _ (by simpa using hx)] at ih
        have hxm : x = minBySnd x ys := Option.some_inj.mp ih
        rw [List.find?_cons_of_pos _ (by simpa using hx)]
        rw [← hxm]
      · have hmx : (minBySnd x ys).2 ≤ x.2 := minBySnd_le ys x x (by simp)
        have hy : ¬ (y.2 ≤ (minBySnd x ys).2) := by
          intro hc
          exact hx (le_trans hxy hc)
        rw [List.find?_cons_of_neg _ (by simpa using hx),
          List.find?_cons_of_neg _ (by simpa using hy)]
        rw [List.find?_cons_of_neg _ (by simpa using hx)] at ih
        exact ih

theorem strided_one {α : Type _} : ∀ (l : List α), strided 1 l = l
  | [] => by simp [strided]
  | _ :: rest => by simp [strided, strided_one rest]

/-- C8: the nearest-point-on-path search scores each consecutive pair of the
strided path by the squared planar distance from `p` to the pair's second
endpoint, returns a scored pair of the list attaining the minimum score, and
on ties returns the earliest such pair; stride 1 leaves the path unchanged. -/
theorem C8_nearest_point (p : Coor) (r : ℕ) (path : List Coor) (pt : Coor) (d2 : ℚ)
    (h : get_closest_point_on_path p r path = some (pt, d2)) :
    strided 1 path = path ∧
    (pt, d2) ∈ closePoints p (strided r path) ∧
    (∀ q ∈ closePoints p (strided r path), d2 ≤ q.2) ∧
    List.find? (fun q => decide (q.2 ≤ d2)) (closePoints p (strided r path)) =
      some (pt, d2) := by
  simp only [get_closest_point_on_path] at h
  split at h
  · simp at h
  · rcases hsp : closePoints p (strided r path) with _ | ⟨c, rest⟩
    · rw [hsp] at h
      simp at h
    · rw [hsp] at h
      have hm : minBySnd c rest = (pt, d2) := Option.some_inj.mp h
      refine ⟨strided_one path, ?_, ?_, ?_⟩
      · rw [← hm]
        exact minBySnd_mem rest c
      · intro q hq
        have := minBySnd_le rest c q hq
        rw [hm] at this
        exact this
      · have := minBySnd_find rest c
        rw [hm] at this
        simpa using this

/-- C8 witness: on the concrete path [(0,1),(0,2),(0,3)] with reference
point (0,0) and stride 1 the search returns the first pair's projection
(0,1) with squared endpoint distance 4, which is minimal and found first. -/
theorem C8_nearest_point_witness :
    strided 1 [((0 : ℚ), (1 : ℚ)), (0, 2), (0, 3)] = [((0 : ℚ), (1 : ℚ)), (0, 2), (0, 3)] ∧
    (((0 : ℚ), (1 : ℚ)), (4 : ℚ)) ∈
      closePoints (0, 0) (strided 1 [((0 : ℚ), (1 : ℚ)), (0, 2), (0, 3)]) ∧
    List.find? (fun q => decide (q.2 ≤ (4 : ℚ)))
        (closePoints (0, 0) (strided 1 [((0 : ℚ), (1 : ℚ)), (0, 2), (0, 3)])) =
      some ((0, 1), 4) := by
  have T := C8_nearest_point (0, 0) 1 [((0 : ℚ), (1 : ℚ)), (0, 2), (0, 3)] (0, 1) 4
    (by norm_num [get_closest_point_on_path, strided, closePoints, minBySnd,
      get_closest_point_on_line, sqDist, List.zip, List.zipWith])
  exact ⟨T.1, T.2.1, T.2.2.2⟩

/-- The ordering Python's stable `sorted(..., key=...)` uses: compare the
keys with `≤`.  `List.insertionSort` with this relation is the stable
ascending sort, the semantics of Python's `sorted`. -/
def leKey {α : Type _} (key : α → ℚ) (a b : α) : Prop := key a ≤ key b

instance {α : Type _} (key : α → ℚ) : DecidableRel (leKey key) :=
  fun a b => inferInstanceAs (Decidable (key a ≤ key b))

instance {α : Type _} (key : α → ℚ) : IsTotal α (leKey key) :=
  ⟨fun a b => le_total (key a) (key b)⟩

instance {α : Type _} (key : α → ℚ) : IsTrans α (leKey key) :=
  ⟨fun _ _ _ h1 h2 => le_trans h1 h2⟩

/-- The list comprehension in
`get_top_k_straight_line_closest_segments_by_start_cors`: each catalog
segment paired with its straight-line geodesic distance from the cursor to
the segment's declared start coordinate. -/
def keyedSegs (gd : Coor → Coor → ℚ) (cur : Coor) (segments : List Seg) : List (Seg × ℚ) :=
  segments.map fun s => (s, gd cur s.start_latlng)

/-- Python's `sorted(..., key=lambda x: x[1])` over the keyed segments. -/
def sortedKeyedSegs (gd : Coor → Coor → ℚ) (cur : Coor) (segments : List Seg) : List (Seg × ℚ) :=
  List.insertionSort (leKey Prod.snd) (keyedSegs gd cur segments)

/-- The `Route` built from a chosen catalog segment: encoded points, length
in kilometers, and the raw record kept in `details`. -/
def mkCandidate (sp : Seg × ℚ) : Route :=
  { polyline := sp.1.points, length := sp.1.distance / 1000, details := some sp.1 }

/-- `RouteFinder.get_top_k_straight_line_closest_segments_by_start_cors`:
sort the catalog by straight-line distance from the cursor to each segment's
start coordinate (stable, so catalog order breaks ties), keep the first `k`,
and build candidate Routes from them. -/
def get_top_k_straight_line_closest_segments_by_start_cors
    (gd : Coor → Coor → ℚ) (cur : Coor) (segments : List Seg) (k : ℕ) : List Route :=
  ((sortedKeyedSegs gd cur segments).take k).map mkCandidate

/-- `RouteFinder.get_closest_point_on_segment_candidates`: for each candidate
in order, find the nearest point of its decoded path and store it together
with the squared planar distance; a geometry failure aborts the whole loop. -/
def get_closest_point_on_segment_candidates (p : Coor) (r : ℕ) :
    List Route → Except Err (List Route)
  | [] => Except.ok []
  | seg :: rest =>
    match get_closest_point_on_path p r (polyDecode seg.polyline) with
    | none => Except.error Err.geometry
    | some cd =>
      match get_closest_point_on_segment_candidates p r rest with
      | Except.error e => Except.error e
      | Except.ok rest2 =>
        Except.ok ({ seg with closest_point := cd.1, straight_line_distance := cd.2 } :: rest2)

/-- One step of the distance-matrix loop in
`get_google_route_distance_on_segment_candidates`: query the walking distance
from the cursor to the candidate's closest point and store it in kilometers;
a missing value is the uncaught exception of the Python lookup. -/
def set_google_route_distance (gw : Gateways) (cur : Coor) (seg : Route) : Except Err Route :=
  match gw.walkDist cur seg.closest_point with
  | none => Except.error Err.gateway
  | some v => Except.ok { seg with google_route_distance := v / 1000 }

/-- The full distance-matrix loop over the candidates, in order; the first
failure aborts the loop. -/
def update_candidates_google (gw : Gateways) (cur : Coor) : List Route → Except Err (List Route)
  | [] => Except.ok []
  | seg :: rest =>
    match set_google_route_distance gw cur seg with
    | Except.error e => Except.error e
    | Except.ok seg2 =>
      match update_candidates_google gw cur rest with
      | Except.error e => Except.error e
      | Except.ok rest2 => Except.ok (seg2 :: rest2)

/-- `RouteFinder.get_google_route_distance_on_segment_candidates`: update all
candidates with provider distances, then take the head of the stable sort by
provider distance (`sorted(...)[0]` — an index error on an empty list). -/
def get_google_route_distance_on_segment_candidates
    (gw : Gateways) (cur : Coor) (cands : List Route) : Except Err (List Route × Route) :=
  match update_candidates_google gw cur cands with
  | Except.error e => Except.error e
  | Except.ok updated =>
    match List.insertionSort (leKey Route.google_route_distance) updated with
    | [] => Except.error Err.index
    | w :: _ => Except.ok (updated, w)

theorem filter_orderedInsert {α : Type _} (key : α → ℚ) (q : ℚ) (x : α) :
    ∀ l : List α,
      (List.orderedInsert (leKey key) x l).filter (fun y => decide (key y = q)) =
        if key x = q then x :: l.filter (fun y => decide (key y = q))
        else l.filter (fun y => decide (key y = q))
  | [] => by
    by_cases hx : key x = q <;>
      simp [List.orderedInsert, List.filter_cons, hx]
  | y :: ys => by
    by_cases hxy : leKey key x y
    · rw [List.orderedInsert_of_le _ _ hxy]
      by_cases hx : key x = q <;> simp [List.filter_cons, hx]
    · have hyx : key y < key x := lt_of_not_le hxy
      have hstep : List.orderedInsert (leKey key) x (y :: ys) =
          y :: List.orderedInsert (leKey key) x ys := by
        simp only [List.orderedInsert, if_neg hxy]
      rw [hstep]
      by_cases hy : key y = q
      · have hx : ¬ key x = q := by
          intro hc
          rw [hc, ← hy] at hyx
          exact lt_irrefl _ hyx
        rw [List.filter_cons, List.filter_cons]
        rw [filter_orderedInsert key q x ys]
        simp [hx, hy]
      · rw [List.filter_cons, List.filter_cons]
        rw [filter_orderedInsert key q x ys]
        by_cases hx : key x = q <;> simp [hx, hy]

theorem filter_insertionSort {α : Type _} (key : α → ℚ) (q : ℚ) :
    ∀ l : List α,
      (List.insertionSort (leKey key) l).filter (fun y => decide (key y = q)) =
        l.filter (fun y => decide (key y = q))
  | [] => rfl
  | x :: xs => by
    simp only [List.insertionSort]
    rw [filter_orderedInsert key q x (List.insertionSort (leKey key) xs)]
    by_cases hx : key x = q <;>
      simp [List.filter_cons, hx, filter_insertionSort key q xs]

theorem insertionSort_head_min {α : Type _} (key : α → ℚ) (l : List α) (w : α)
    (rest : List α) (h : List.insertionSort (leKey key) l = w :: rest) :
    w ∈ l ∧ ∀ c ∈ l, key w ≤ key c := by
  have hperm := List.perm_insertionSort (leKey key) l
  rw [h] at hperm
  constructor
  · exact hperm.subset (List.mem_cons_self w rest)
  · intro c hc
    have hs := List.sorted_insertionSort (leKey key) l
    rw [h] at hs
    rcases List.mem_cons.mp (hperm.symm.subset hc) with rfl | hcr
    · exact le_refl _
    · exact (List.sorted_cons.mp hs).1 c hcr

/-- C9: candidate ranking sorts the keyed catalog ascending by straight-line
distance from the cursor to each segment's start coordinate, stably (ties
keep catalog order), keeps at most `k` candidates all drawn from the catalog,
and the winner returned by the provider-distance step is a refined candidate
of minimum provider distance. -/
theorem C9_ranking (gd : Coor → Coor → ℚ) (cur : Coor) (catalog : List Seg) (k : ℕ)
    (gw : Gateways) (cands upd : List Route) (w : Route)
    (hw : get_google_route_distance_on_segment_candidates gw cur cands =
      Except.ok (upd, w)) :
    (get_top_k_straight_line_closest_segments_by_start_cors gd cur catalog k).length =
      min k catalog.length ∧
    List.Sorted (leKey Prod.snd) (sortedKeyedSegs gd cur catalog) ∧
    (sortedKeyedSegs gd cur catalog).Perm (keyedSegs gd cur catalog) ∧
    (∀ q, (sortedKeyedSegs gd cur catalog).filter (fun y => decide (y.2 = q)) =
      (keyedSegs gd cur catalog).filter (fun y => decide (y.2 = q))) ∧
    (∀ pr ∈ keyedSegs gd cur catalog, pr.2 = gd cur pr.1.start_latlng) ∧
    (∀ ro ∈ get_top_k_straight_line_closest_segments_by_start_cors gd cur catalog k,
      ∃ s ∈ catalog, ro = mkCandidate (s, gd cur s.start_latlng)) ∧
    w ∈ upd ∧ (∀ c ∈ upd, w.google_route_distance ≤ c.google_route_distance) := by
  have hwin : w ∈ upd ∧ ∀ c ∈ upd, w.google_route_distance ≤ c.google_route_distance := by
    rcases hup : update_candidates_google gw cur cands with e | updated
    · simp only [get_google_route_distance_on_segment_candidates, hup] at hw
      cases hw
    · simp only [get_google_route_distance_on_segment_candidates, hup] at hw
      rcases hsort : List.insertionSort (leKey Route.google_route_distance) updated with
        _ | ⟨w0, rest⟩
      · rw [hsort] at hw
        simp at hw
      · rw [hsort] at hw
        simp only [Except.ok.injEq, Prod.mk.injEq] at hw
        obtain ⟨rfl, rfl⟩ := hw
        exact insertionSort_head_min Route.google_route_distance updated w0 rest hsort
  refine ⟨?_, ?_, ?_, ?_, ?_, ?_, hwin.1, hwin.2⟩
  · simp [get_top_k_straight_line_closest_segments_by_start_cors, sortedKeyedSegs,
      List.length_insertionSort, keyedSegs]
  · exact List.sorted_insertionSort (leKey Prod.snd) _
  · exact List.perm_insertionSort (leKey Prod.snd) _
  · intro q
    exact filter_insertionSort Prod.snd q (keyedSegs gd cur catalog)
  · intro pr hpr
    rcases List.mem_map.mp hpr with ⟨s, _, rfl⟩
    rfl
  · intro ro hro
    rcases List.mem_map.mp hro with ⟨sp, hsp, rfl⟩
    have hsp2 : sp ∈ sortedKeyedSegs gd cur catalog := List.take_subset k _ hsp
    have hsp3 : sp ∈ keyedSegs gd cur catalog :=
      (List.perm_insertionSort (leKey Prod.snd) _).subset hsp2
    rcases List.mem_map.mp hsp3 with ⟨s, hs, rfl⟩
    exact ⟨s, hs, rfl⟩

theorem update_candidates_google_ok_iff (gw : Gateways) (cur : Coor) :
    ∀ cands : List Route,
      (∃ l, update_candidates_google gw cur cands = Except.ok l) ↔
        ∀ c ∈ cands, (gw.walkDist cur c.closest_point).isSome
  | [] => by simp [update_candidates_google]
  | seg :: rest => by
    constructor
    · rintro ⟨l, hl⟩ c hc
      simp only [update_candidates_google, set_google_route_distance] at hl
      rcases hd : gw.walkDist cur seg.closest_point with _ | v
      · rw [hd] at hl
        cases hl
      · rw [hd] at hl
        rcases List.mem_cons.mp hc with rfl | hcr
        · simp [hd]
        · rcases hr : update_candidates_google gw cur rest with e | l2
          · rw [hr] at hl
            cases hl
          · exact (update_candidates_google_ok_iff gw cur rest).mp ⟨l2, hr⟩ c hcr
    · intro hall
      have hseg := hall seg (List.mem_cons_self seg rest)
      rcases hd : gw.walkDist cur seg.closest_point with _ | v
      · rw [hd] at hseg
        cases hseg
      · rcases (update_candidates_google_ok_iff gw cur rest).mpr
          (fun c hc => hall c (List.mem_cons_of_mem seg hc)) with ⟨l2, hr⟩
        exact ⟨{ seg with google_route_distance := v / 1000 } :: l2, by
          simp only [update_candidates_google, set_google_route_distance, hd, hr]⟩

theorem update_candidates_google_none (gw : Gateways) (cur : Coor) :
    ∀ cands : List Route,
      (∃ c ∈ cands, gw.walkDist cur c.closest_point = none) →
        update_candidates_google gw cur cands = Except.error Err.gateway
  | [] => by simp
  | seg :: rest => by
    rintro ⟨c, hc, hnone⟩
    rcases hd : gw.walkDist cur seg.closest_point with _ | v
    · simp only [update_candidates_google, set_google_route_distance, hd]
    · rcases List.mem_cons.mp hc with rfl | hcr
      · rw [hd] at hnone
        cases hnone
      · have ih := update_candidates_google_none gw cur rest ⟨c, hcr, hnone⟩
        simp only [update_candidates_google, set_google_route_distance, hd, ih]

theorem update_candidates_google_length (gw : Gateways) (cur : Coor) :
    ∀ (cands l : List Route),
      update_candidates_google gw cur cands = Except.ok l → l.length = cands.length
  | [], l => by
    intro h
    simp only [update_candidates_google] at h
    cases h
    rfl
  | seg :: rest, l => by
    intro h
    simp only [update_candidates_google] at h
    rcases hs : set_google_route_distance gw cur seg with e | seg2
    · rw [hs] at h
      cases h
    · rw [hs] at h
      rcases hr : update_candidates_google gw cur rest with e | rest2
      · rw [hr] at h
        cases h
      · rw [hr] at h
        cases h
        have := update_candidates_google_length gw cur rest rest2 hr
        simp [this]

/-- C3 (amended): the ranking step does not exclude candidates whose
walking-distance query fails — it succeeds exactly when the candidate list is
nonempty and every query succeeds, and any failing candidate makes the whole
step fail with the propagated gateway error (there is no `NoViableCandidate`
error in the code). -/
theorem C3_failure_propagation (gw : Gateways) (cur : Coor) (cands : List Route) :
    ((∃ res, get_google_route_distance_on_segment_candidates gw cur cands =
        Except.ok res) ↔
      (cands ≠ [] ∧ ∀ c ∈ cands, (gw.walkDist cur c.closest_point).isSome)) ∧
    ((∃ c ∈ cands, gw.walkDist cur c.closest_point = none) →
      get_google_route_distance_on_segment_candidates gw cur cands =
        Except.error Err.gateway) := by
  constructor
  · constructor
    · rintro ⟨res, hres⟩
      rcases hup : update_candidates_google gw cur cands with e | updated
      · simp only [get_google_route_distance_on_segment_candidates, hup] at hres
        cases hres
      · refine ⟨?_, (update_candidates_google_ok_iff gw cur cands).mp ⟨updated, hup⟩⟩
        rintro rfl
        simp only [update_candidates_google] at hup
        cases hup
        simp only [get_google_route_distance_on_segment_candidates,
          update_candidates_google, List.insertionSort] at hres
        cases hres
    · rintro ⟨hne, hall⟩
      rcases (update_candidates_google_ok_iff gw cur cands).mpr hall with ⟨updated, hup⟩
      have hlen : updated.length = cands.length :=
        update_candidates_google_length gw cur cands updated hup
      rcases hsort : List.insertionSort (leKey Route.google_route_distance) updated with
        _ | ⟨w0, rest⟩
      · have : updated = [] :=
          List.eq_nil_of_length_eq_zero (by
            have := (List.perm_insertionSort (leKey Route.google_route_distance) updated).length_eq
            rw [hsort] at this
            simpa using this.symm)
        rw [this] at hlen
        exact absurd (List.eq_nil_of_length_eq_zero hlen.symm) hne
      · exact ⟨(updated, w0), by
          simp only [get_google_route_distance_on_segment_candidates, hup, hsort]⟩
  · intro hex
    have := update_candidates_google_none gw cur cands hex
    simp only [get_google_route_distance_on_segment_candidates, this]

/-- Concrete candidate routes for the error-propagation scenarios: only the
closest points matter. -/
def cRa : Route := { polyline := ⟨[]⟩, length := 1, closest_point := (0, 1) }

/-- Second concrete candidate, with a different closest point. -/
def cRb : Route := { polyline := ⟨[]⟩, length := 1, closest_point := (0, 5) }

/-- A gateway whose distance-matrix call fails exactly for destination (0,1)
and succeeds with 5000 meters otherwise. -/
def cgwFail : Gateways where
  auth := true
  discover _ _ := Except.ok none
  walkDist _ dest := if dest = ((0 : ℚ), (1 : ℚ)) then none else some 5000
  walkRoute _ _ := none

/-- C3 counterexample: with two candidates of which only the first fails the
distance query, the whole ranking step fails with the propagated gateway
error instead of excluding the failing candidate and ranking the rest. -/
theorem C3_counterexample :
    get_google_route_distance_on_segment_candidates cgwFail (0, 0) [cRa, cRb] =
      Except.error Err.gateway ∧
    cgwFail.walkDist (0, 0) cRb.closest_point = some 5000 := by
  constructor
  · norm_num [get_google_route_distance_on_segment_candidates,
      update_candidates_google, set_google_route_distance, cgwFail, cRa, cRb,
      Prod.ext_iff]
  · norm_num [cgwFail, cRb, Prod.ext_iff]

/-- A gateway whose distance-matrix call always succeeds with 700 meters. -/
def cgwOk : Gateways where
  auth := true
  discover _ _ := Except.ok none
  walkDist _ _ := some 700
  walkRoute _ _ := none

/-- C3 witness: with one candidate whose query succeeds, the ranking step
succeeds. -/
theorem C3_failure_propagation_witness :
    ∃ res, get_google_route_distance_on_segment_candidates cgwOk (0, 0) [cRa] =
      Except.ok res :=
  (C3_failure_propagation cgwOk (0, 0) [cRa]).1.mpr
    ⟨by simp, by
      intro c hc
      rcases List.mem_cons.mp hc with rfl | hc2
      · simp [cgwOk]
      · cases hc2⟩

/-- `RouteFinder.combine_route`: decode both paths, concatenate, re-encode,
and add the lengths. -/
def combine_route (r1 r2 : Route) : Route :=
  { polyline := polyEncode (polyDecode r1.polyline ++ polyDecode r2.polyline),
    length := r1.length + r2.length }

/-- `RouteFinder.get_result_route_last_cor`: the last coordinate of the
result route's decoded path (`[-1]` — an index error when it is empty). -/
def get_result_route_last_cor (r : Route) : Except Err Coor :=
  match (polyDecode r.polyline).getLast? with
  | none => Except.error Err.index
  | some c => Except.ok c

/-- `RouteFinder.init_before_next_search`: remove the chosen segment's record
from the catalog (`list.remove` — exactly the first equal record, a value
error when absent) and advance the cursor to the result route's last
coordinate. -/
def init_before_next_search (catalog : List Seg) (winner result : Route) :
    Except Err (List Seg × Coor) :=
  match winner.details with
  | none => Except.error Err.value
  | some s =>
    if s ∈ catalog then
      match (polyDecode result.polyline).getLast? with
      | none => Except.error Err.index
      | some c => Except.ok (catalog.erase s, c)
    else Except.error Err.value

/-- `RouteFinder.get_route_to_closest_segment`: rank the catalog from the
cursor, refine the top-k candidates with closest points and provider
distances, then fetch the walking route from the cursor to the winner's
closest point. Returns the access route and the winning segment's Route. -/
def get_route_to_closest_segment (gw : Gateways) (gd : Coor → Coor → ℚ) (P : Params)
    (cur : Coor) (catalog : List Seg) : Except Err (Route × Route) :=
  let cands := get_top_k_straight_line_closest_segments_by_start_cors gd cur catalog P.k
  match get_closest_point_on_segment_candidates cur P.downsample cands with
  | Except.error e => Except.error e
  | Except.ok cands2 =>
    match get_google_route_distance_on_segment_candidates gw cur cands2 with
    | Except.error e => Except.error e
    | Except.ok uw =>
      match gw.walkRoute cur uw.2.closest_point with
      | none => Except.error Err.gateway
      | some pr =>
        Except.ok ({ polyline := pr.1, length := pr.2 / 1000, details := none,
                     straight_line_distance := 0, google_route_distance := 0 }, uw.2)

/-- Observable gateway events of a run: a catalog-discovery query (with its
bounding-box center and diagonal) and a ranking round (with its cursor). -/
inductive Ev where
  | disc (center : Coor) (diag : ℚ)
  | rank (cursor : Coor)
deriving DecidableEq, Repr

/-- Whether an event is a catalog-discovery query. -/
def isDisc : Ev → Bool
  | Ev.disc _ _ => true
  | _ => false

/-- Number of catalog-discovery queries in an event log. -/
def countDisc (evs : List Ev) : ℕ := (evs.filter isDisc).length

/-- `RouteFinder.get_nearby_strava_segments`: query the segment catalog
around the fixed center, doubling the bounding-box diagonal while the
response's JSON is `None`; a non-200 response raises.  The Python loop has no
cap; `fuel` only makes the model total and `none` marks fuel exhaustion (the
Python loop still running). Also records one discovery event per query. -/
def discLoop (gw : Gateways) (cor : Coor) (diag : ℚ) :
    ℕ → Option (Except Err (List Seg)) × List Ev
  | 0 => (none, [])
  | fuel + 1 =>
    match gw.discover cor diag with
    | Except.error _ => (some (Except.error Err.gateway), [Ev.disc cor diag])
    | Except.ok none =>
      let res := discLoop gw cor (diag * 2) fuel
      (res.1, Ev.disc cor diag :: res.2)
    | Except.ok (some segs) => (some (Except.ok segs), [Ev.disc cor diag])

/-- The `while self.result_route.length < self.ideal_distance/2` loop of
`RouteFinder.run`: remove the previous winner from the catalog, advance the
cursor, rank and fetch again, and append the combined chunk to the result;
when the test fails, trim and complete.  The Python loop has no cap; `fuel`
only makes the model total and `none` marks fuel exhaustion.  Records one
ranking event per iteration. -/
def runLoop (gw : Gateways) (gd : Coor → Coor → ℚ) (P : Params) :
    ℕ → List Seg → Coor → Route → Route → Option (Except Err Route) × List Ev
  | 0, _, _, _, _ => (none, [])
  | fuel + 1, catalog, cur, result, winner =>
    if result.length < P.ideal_distance / 2 then
      match init_before_next_search catalog winner result with
      | Except.error e => (some (Except.error e), [])
      | Except.ok cc =>
        match get_route_to_closest_segment gw gd P cc.2 cc.1 with
        | Except.error e => (some (Except.error e), [Ev.rank cc.2])
        | Except.ok rwp =>
          let next := combine_route rwp.1 rwp.2
          let result2 := combine_route result next
          let res := runLoop gw gd P fuel cc.1 cc.2 result2 rwp.2
          (res.1, Ev.rank cc.2 :: res.2)
    else (some (Except.ok (trim_and_complete gd P.ideal_distance result)), [])

/-- `RouteFinder.run`: refresh the token, discover the catalog once around
the initial coordinate, build the first result from the first ranking round,
loop until the length test fails, then trim and complete.  The event log
records every discovery query and ranking round in order. -/
def run (gw : Gateways) (gd : Coor → Coor → ℚ) (P : Params) (dfuel lfuel : ℕ) :
    Option (Except Err Route) × List Ev :=
  match gw.auth with
  | false => (some (Except.error Err.gateway), [])
  | true =>
    match discLoop gw P.init_cor P.init_diag_distance dfuel with
    | (none, evs) => (none, evs)
    | (some (Except.error e), evs) => (some (Except.error e), evs)
    | (some (Except.ok catalog), evs) =>
      match get_route_to_closest_segment gw gd P P.init_cor catalog with
      | Except.error e => (some (Except.error e), evs ++ [Ev.rank P.init_cor])
      | Except.ok rwp =>
        let result := combine_route rwp.1 rwp.2
        let lr := runLoop gw gd P lfuel catalog P.init_cor result rwp.2
        (lr.1, evs ++ Ev.rank P.init_cor :: lr.2)

theorem init_before_next_search_spec (catalog cat2 : List Seg) (winner result : Route)
    (cur2 : Coor)
    (h : init_before_next_search catalog winner result = Except.ok (cat2, cur2)) :
    ∃ s, winner.details = some s ∧ s ∈ catalog ∧ cat2 = catalog.erase s := by
  rcases hd : winner.details with _ | s
  · simp only [init_before_next_search, hd] at h
    cases h
  · simp only [init_before_next_search, hd] at h
    by_cases hmem : s ∈ catalog
    · rw [if_pos hmem] at h
      rcases hl : (polyDecode result.polyline).getLast? with _ | c
      · rw [hl] at h
        cases h
      · rw [hl] at h
        simp only [Except.ok.injEq, Prod.mk.injEq] at h
        exact ⟨s, rfl, hmem, h.1.symm⟩
    · rw [if_neg hmem] at h
      cases h

theorem runLoop_isSome (gw : Gateways) (gd : Coor → Coor → ℚ) (P : Params) :
    ∀ (fuel : ℕ) (catalog : List Seg) (cur : Coor) (result winner : Route),
      catalog.length < fuel →
        ((runLoop gw gd P fuel catalog cur result winner).1).isSome := by
  intro fuel
  induction fuel with
  | zero =>
    intro catalog _ _ _ h
    exact absurd h (Nat.not_lt_zero _)
  | succ n ih =>
    intro catalog cur result winner h
    by_cases hlen : result.length < P.ideal_distance / 2
    · rcases hi : init_before_next_search catalog winner result with er | ⟨cat2, cur2⟩
      · simp [runLoop, if_pos hlen, hi]
      · rcases hr : get_route_to_closest_segment gw gd P cur2 cat2 with er | rwp
        · simp [runLoop, if_pos hlen, hi, hr]
        · obtain ⟨s, hds, hmem, hcat⟩ :=
            init_before_next_search_spec catalog cat2 winner result cur2 hi
          have hlt : cat2.length < n := by
            have h1 : (catalog.erase s).length = catalog.length - 1 :=
              List.length_erase_of_mem hmem
            have h2 : 0 < catalog.length := List.length_pos.mpr (List.ne_nil_of_mem hmem)
            rw [hcat]
            omega
          have := ih cat2 cur2 (combine_route result (combine_route rwp.1 rwp.2)) rwp.2 hlt
          simpa [runLoop, if_pos hlen, hi, hr] using this
    · simp [runLoop, if_neg hlen]

theorem runLoop_no_disc (gw : Gateways) (gd : Coor → Coor → ℚ) (P : Params) :
    ∀ (fuel : ℕ) (catalog : List Seg) (cur : Coor) (result winner : Route),
      ∀ e ∈ (runLoop gw gd P fuel catalog cur result winner).2, isDisc e = false
  | 0, catalog, cur, result, winner => by simp [runLoop]
  | fuel + 1, catalog, cur, result, winner => by
    intro e he
    by_cases hlen : result.length < P.ideal_distance / 2
    · rcases hi : init_before_next_search catalog winner result with er | ⟨cat2, cur2⟩
      · simp only [runLoop, if_pos hlen, hi] at he
        simp at he
      · rcases hr : get_route_to_closest_segment gw gd P cur2 cat2 with er | rwp
        · simp only [runLoop, if_pos hlen, hi, hr] at he
          simp at he
          subst he
          rfl
        · simp only [runLoop, if_pos hlen, hi, hr] at he
          rcases List.mem_cons.mp he with rfl | h2
          · rfl
          · exact runLoop_no_disc gw gd P fuel cat2 cur2 _ rwp.2 e h2
    · simp only [runLoop, if_neg hlen] at he
      simp at he

theorem discLoop_center (gw : Gateways) (cor : Coor) :
    ∀ (fuel : ℕ) (diag : ℚ), ∀ e ∈ (discLoop gw cor diag fuel).2, ∃ dg, e = Ev.disc cor dg
  | 0, diag => by simp [discLoop]
  | fuel + 1, diag => by
    intro e he
    rcases hd : gw.discover cor diag with er | (_ | segs)
    · simp only [discLoop, hd] at he
      simp at he
      subst he
      exact ⟨diag, rfl⟩
    · simp only [discLoop, hd] at he
      rcases List.mem_cons.mp he with rfl | h2
      · exact ⟨diag, rfl⟩
      · exact discLoop_center gw cor fuel (diag * 2) e h2
    · simp only [discLoop, hd] at he
      simp at he
      subst he
      exact ⟨diag, rfl⟩

theorem run_log_split (gw : Gateways) (gd : Coor → Coor → ℚ) (P : Params)
    (dfuel lfuel : ℕ) (ha : gw.auth = true) :
    ∃ tailEvs,
      (run gw gd P dfuel lfuel).2 =
        (discLoop gw P.init_cor P.init_diag_distance dfuel).2 ++ tailEvs ∧
      ∀ e ∈ tailEvs, isDisc e = false := by
  rcases hd : discLoop gw P.init_cor P.init_diag_distance dfuel with ⟨res, evs⟩
  rcases res with _ | (er | catalog)
  · exact ⟨[], by simp [run, ha, hd], by simp⟩
  · exact ⟨[], by simp [run, ha, hd], by simp⟩
  · rcases hr : get_route_to_closest_segment gw gd P P.init_cor catalog with er | rwp
    · refine ⟨[Ev.rank P.init_cor], by simp [run, ha, hd, hr], ?_⟩
      intro e he
      simp at he
      subst he
      rfl
    · refine ⟨Ev.rank P.init_cor ::
        (runLoop gw gd P lfuel catalog P.init_cor (combine_route rwp.1 rwp.2) rwp.2).2,
        by simp [run, ha, hd, hr], ?_⟩
      intro e he
      rcases List.mem_cons.mp he with rfl | h2
      · rfl
      · exact runLoop_no_disc gw gd P lfuel catalog P.init_cor _ rwp.2 e h2

/-- C1 (amended): every catalog-discovery query of a run happens in the
initial discovery phase, before the first ranking round, and is centered at
the initial coordinate; after the termination check the loop ranks again
without any fresh discovery, so the whole run performs exactly the discovery
queries of the initial phase. -/
theorem C1_no_rediscovery (gw : Gateways) (gd : Coor → Coor → ℚ) (P : Params)
    (dfuel lfuel : ℕ) (ha : gw.auth = true) (e : Ev)
    (he : e ∈ (run gw gd P dfuel lfuel).2) :
    (∀ c dg, e = Ev.disc c dg → c = P.init_cor) ∧
    countDisc (run gw gd P dfuel lfuel).2 =
      countDisc (discLoop gw P.init_cor P.init_diag_distance dfuel).2 := by
  obtain ⟨tailEvs, hlog, htail⟩ := run_log_split gw gd P dfuel lfuel ha
  constructor
  · intro c dg hedisc
    rw [hlog] at he
    rcases List.mem_append.mp he with h1 | h2
    · obtain ⟨dg2, hdg⟩ :=
        discLoop_center gw P.init_cor dfuel P.init_diag_distance e h1
      rw [hedisc] at hdg
      exact (Ev.disc.injEq _ _ _ _).mp hdg |>.1
    · have hq := htail e h2
      rw [hedisc] at hq
      simp [isDisc] at hq
  · rw [hlog]
    unfold countDisc
    rw [List.filter_append]
    have hnil : tailEvs.filter isDisc = [] := by
      rw [List.filter_eq_nil]
      intro a ha2
      simp [htail a ha2]
    rw [hnil]
    simp

theorem runLoop_fst (gw : Gateways) (gd : Coor → Coor → ℚ) (P : Params)
    (fuel : ℕ) (catalog : List Seg) (cur : Coor) (result winner : Route)
    (hlen : ¬ result.length < P.ideal_distance / 2) :
    (runLoop gw gd P (fuel + 1) catalog cur result winner).1 =
      some (Except.ok (trim_and_complete gd P.ideal_distance result)) := by
  simp [runLoop, if_neg hlen]

/-- C2 (amended): when the discovery gateway succeeds with a (non-`None`)
batch on the first query, the bounding-box loop stops after exactly one
query, and the outer loop needs no configured cap: it terminates — with the
completed route or with a run failure — within (initial catalog size) + 1
iterations, one per catalog record that can be consumed. -/
theorem C2_bounded_termination (gw : Gateways) (gd : Coor → Coor → ℚ) (P : Params)
    (catalog : List Seg) (dfuel lfuel : ℕ)
    (ha : gw.auth = true)
    (hd : gw.discover P.init_cor P.init_diag_distance = Except.ok (some catalog))
    (hdf : 1 ≤ dfuel) (hlf : catalog.length < lfuel) :
    (discLoop gw P.init_cor P.init_diag_distance dfuel).1 = some (Except.ok catalog) ∧
    (discLoop gw P.init_cor P.init_diag_distance dfuel).2 =
      [Ev.disc P.init_cor P.init_diag_distance] ∧
    ((run gw gd P dfuel lfuel).1).isSome := by
  obtain ⟨m, rfl⟩ : ∃ m, dfuel = m + 1 := ⟨dfuel - 1, by omega⟩
  have hdisc : discLoop gw P.init_cor P.init_diag_distance (m + 1) =
      (some (Except.ok catalog), [Ev.disc P.init_cor P.init_diag_distance]) := by
    simp [discLoop, hd]
  refine ⟨by rw [hdisc], by rw [hdisc], ?_⟩
  rcases hr : get_route_to_closest_segment gw gd P P.init_cor catalog with er | rwp
  · simp [run, ha, hdisc, hr]
  · have hloop := runLoop_isSome gw gd P lfuel catalog P.init_cor
      (combine_route rwp.1 rwp.2) rwp.2 hlf
    simpa [run, ha, hdisc, hr] using hloop

/-- C10: the catalog update before the next search removes exactly the first
occurrence of the selected segment's record — the catalog shrinks by exactly
one, the selected record's multiplicity drops by exactly one and no other
record is touched, so in a duplicate-free batch the selected record is never
selectable again — and the outer loop can execute at most (catalog size)
iterations without running out of records. -/
theorem C10_single_use (catalog cat2 : List Seg) (winner result : Route) (cur2 : Coor)
    (s : Seg) (gw : Gateways) (gd : Coor → Coor → ℚ) (P : Params) (fuel : ℕ)
    (cat3 : List Seg) (cur3 : Coor) (result3 winner3 : Route)
    (h : init_before_next_search catalog winner result = Except.ok (cat2, cur2))
    (hs : winner.details = some s) (hf : cat3.length < fuel) :
    cat2 = catalog.erase s ∧ s ∈ catalog ∧ cat2.length + 1 = catalog.length ∧
    cat2.count s + 1 = catalog.count s ∧
    (∀ t, t ≠ s → cat2.count t = catalog.count t) ∧
    (catalog.Nodup → s ∉ cat2) ∧
    ((runLoop gw gd P fuel cat3 cur3 result3 winner3).1).isSome := by
  obtain ⟨s0, hd0, hmem, hcat⟩ :=
    init_before_next_search_spec catalog cat2 winner result cur2 h
  have hss : s0 = s := by
    rw [hd0] at hs
    exact Option.some_inj.mp hs
  subst hss
  refine ⟨hcat, hmem, ?_, ?_, ?_, ?_,
    runLoop_isSome gw gd P fuel cat3 cur3 result3 winner3 hf⟩
  · have h1 : (catalog.erase s0).length = catalog.length - 1 :=
      List.length_erase_of_mem hmem
    have h2 : 0 < catalog.length := List.length_pos.mpr (List.ne_nil_of_mem hmem)
    rw [hcat]
    omega
  · have h1 := List.count_erase_self s0 catalog
    have h2 : 0 < catalog.count s0 := List.count_pos_iff.mpr hmem
    rw [hcat]
    omega
  · intro t ht
    rw [hcat]
    exact List.count_erase_of_ne ht catalog
  · intro hnd
    rw [hcat]
    exact hnd.not_mem_erase

/-- A concrete catalog segment one kilometer north of the origin. -/
def s1 : Seg :=
  { start_latlng := (0, 1), points := ⟨[(0, 1), (0, 2)]⟩, distance := 1000, meta := 1 }

/-- A concrete catalog segment five kilometers north of the origin. -/
def s2 : Seg :=
  { start_latlng := (0, 5), points := ⟨[(0, 5), (0, 6)]⟩, distance := 1000, meta := 2 }

/-- A gateway whose discovery always succeeds with the two-segment batch and
whose distance and directions calls always succeed. -/
def cgw : Gateways where
  auth := true
  discover _ _ := Except.ok (some [s1, s2])
  walkDist _ _ := some 500
  walkRoute c d := some (⟨[c, d]⟩, 1000)

/-- A gateway whose discovery always succeeds with the single-segment batch
and whose distance and directions calls always succeed. -/
def cgw1 : Gateways where
  auth := true
  discover _ _ := Except.ok (some [s1])
  walkDist _ _ := some 500
  walkRoute c d := some (⟨[c, d]⟩, 1000)

/-- Concrete run parameters: origin (0,0), ideal round trip 8 km (one-way
target 4 km), the defaults otherwise. -/
def cP : Params :=
  { init_cor := (0, 0), ideal_distance := 8, init_diag_distance := 20, k := 3,
    downsample := 1 }

/-- C1 counterexample: a run that needs one loop iteration (two ranking
rounds, the second at the advanced cursor (0,2)) performs exactly one
catalog-discovery query, before the first ranking and centered at the
initial coordinate — no fresh recentered discovery precedes the second
ranking round. -/
theorem C1_counterexample :
    (run cgw taxi cP 3 3).2 = [Ev.disc (0, 0) 20, Ev.rank (0, 0), Ev.rank (0, 2)] ∧
    countDisc (run cgw taxi cP 3 3).2 = 1 ∧
    ((run cgw taxi cP 3 3).1).isSome := by
  refine ⟨?_, ?_, ?_⟩ <;>
    norm_num [run, discLoop, runLoop, cgw, cP, s1, s2, taxi, countDisc, isDisc,
      get_route_to_closest_segment,
      get_top_k_straight_line_closest_segments_by_start_cors, keyedSegs,
      sortedKeyedSegs, mkCandidate, List.insertionSort, List.orderedInsert, leKey,
      get_closest_point_on_segment_candidates, get_closest_point_on_path, strided,
      closePoints, get_closest_point_on_line, sqDist, minBySnd, List.zip,
      List.zipWith, polyDecode, polyEncode, quantC, quant5, round_eq,
      get_google_route_distance_on_segment_candidates, update_candidates_google,
      set_google_route_distance, combine_route, init_before_next_search,
      trim_and_complete, trim_route, trimPairs, List.erase_cons, beq_iff_eq,
      List.take, List.getLast?, Prod.ext_iff]

/-- C1 witness: in the concrete two-iteration run, the single discovery event
is centered at the initial coordinate and the run's discovery count equals
the initial phase's. -/
theorem C1_no_rediscovery_witness :
    (((0 : ℚ), (0 : ℚ)) : Coor) = cP.init_cor ∧
    countDisc (run cgw taxi cP 3 3).2 =
      countDisc (discLoop cgw cP.init_cor cP.init_diag_distance 3).2 := by
  have T := C1_no_rediscovery cgw taxi cP 3 3 rfl (Ev.disc (0, 0) 20)
    (by norm_num [run, discLoop, runLoop, cgw, cP, s1, s2, taxi,
      get_route_to_closest_segment,
      get_top_k_straight_line_closest_segments_by_start_cors, keyedSegs,
      sortedKeyedSegs, mkCandidate, List.insertionSort, List.orderedInsert, leKey,
      get_closest_point_on_segment_candidates, get_closest_point_on_path, strided,
      closePoints, get_closest_point_on_line, sqDist, minBySnd, List.zip,
      List.zipWith, polyDecode, polyEncode, quantC, quant5, round_eq,
      get_google_route_distance_on_segment_candidates, update_candidates_google,
      set_google_route_distance, combine_route, init_before_next_search,
      trim_and_complete, trim_route, trimPairs, List.erase_cons, beq_iff_eq,
      List.take, List.getLast?, Prod.ext_iff])
  exact ⟨T.1 (0, 0) 20 rfl, T.2⟩

/-- C2 counterexample: with a discovery gateway that always succeeds with a
one-segment batch and distance/directions gateways that always succeed, the
run does not reach the completed state: after the single catalog record is
consumed the next ranking round fails with an index error. -/
theorem C2_counterexample :
    (run cgw1 taxi cP 3 3).1 = some (Except.error Err.index) ∧
    cgw1.auth = true ∧
    cgw1.discover = (fun _ _ => Except.ok (some [s1])) ∧
    cgw1.walkDist = (fun _ _ => some 500) ∧
    cgw1.walkRoute = (fun c d => some (⟨[c, d]⟩, 1000)) := by
  refine ⟨?_, rfl, rfl, rfl, rfl⟩
  norm_num [run, discLoop, runLoop, cgw1, cP, s1, taxi,
    get_route_to_closest_segment,
    get_top_k_straight_line_closest_segments_by_start_cors, keyedSegs,
    sortedKeyedSegs, mkCandidate, List.insertionSort, List.orderedInsert, leKey,
    get_closest_point_on_segment_candidates, get_closest_point_on_path, strided,
    closePoints, get_closest_point_on_line, sqDist, minBySnd, List.zip,
    List.zipWith, polyDecode, polyEncode, quantC, quant5, round_eq,
    get_google_route_distance_on_segment_candidates, update_candidates_google,
    set_google_route_distance, combine_route, init_before_next_search,
    trim_and_complete, trim_route, trimPairs, List.erase_cons, beq_iff_eq,
    List.take, List.getLast?, Prod.ext_iff]

/-- C2 witness: with the one-segment always-succeeding gateway, discovery
stops after one query and the run terminates within the catalog-size bound. -/
theorem C2_bounded_termination_witness :
    (discLoop cgw1 cP.init_cor cP.init_diag_distance 1).1 = some (Except.ok [s1]) ∧
    (discLoop cgw1 cP.init_cor cP.init_diag_distance 1).2 =
      [Ev.disc cP.init_cor cP.init_diag_distance] ∧
    ((run cgw1 taxi cP 1 2).1).isSome :=
  C2_bounded_termination cgw1 taxi cP [s1] 1 2 rfl rfl (by norm_num) (by norm_num)

/-- The previously selected winner Route of the concrete scenario: the first
segment's candidate. -/
def cWinner : Route := { polyline := ⟨[(0, 1), (0, 2)]⟩, length := 1, details := some s1 }

/-- The concrete result route whose last decoded coordinate is (0,2). -/
def cResult : Route := { polyline := ⟨[(0, 0), (0, 2)]⟩, length := 2 }

/-- C10 witness: removing the selected first segment from the two-segment
catalog leaves exactly the second one, and the loop on the two-segment
catalog terminates within fuel 3. -/
theorem C10_single_use_witness :
    ([s2] : List Seg) = [s1, s2].erase s1 ∧ s1 ∈ [s1, s2] ∧
    ([s2] : List Seg).length + 1 = ([s1, s2] : List Seg).length ∧
    ((runLoop cgw1 taxi cP 3 [s1, s2] (0, 0) cResult cWinner).1).isSome := by
  have T := C10_single_use [s1, s2] [s2] cWinner cResult (0, 2) s1 cgw1 taxi cP 3
    [s1, s2] (0, 0) cResult cWinner
    (by norm_num [init_before_next_search, cWinner, cResult, polyDecode,
      List.getLast?, List.erase_cons, beq_iff_eq])
    rfl (by norm_num)
  exact ⟨T.1, T.2.1, T.2.2.1, T.2.2.2.2.2.2⟩

/-- The first concrete candidate refined with provider distance 7/10 km. -/
def cRa7 : Route :=
  { polyline := ⟨[]⟩, length := 1, closest_point := (0, 1), google_route_distance := 7/10 }

/-- The second concrete candidate refined with provider distance 7/10 km. -/
def cRb7 : Route :=
  { polyline := ⟨[]⟩, length := 1, closest_point := (0, 5), google_route_distance := 7/10 }

/-- C9 witness: the ranking of the concrete two-segment catalog has length
min 3 2, and in the concrete refinement round with equal provider distances
the stable sort selects the first candidate as winner. -/
theorem C9_ranking_witness :
    (get_top_k_straight_line_closest_segments_by_start_cors taxi (0, 0) [s1, s2] 3).length =
      min 3 ([s1, s2] : List Seg).length ∧ cRa7 ∈ [cRa7, cRb7] := by
  have T := C9_ranking taxi (0, 0) [s1, s2] 3 cgwOk [cRa, cRb] [cRa7, cRb7] cRa7
    (by norm_num [get_google_route_distance_on_segment_candidates,
      update_candidates_google, set_google_route_distance, cgwOk, cRa, cRb, cRa7,
      cRb7, List.insertionSort, List.orderedInsert, leKey])
  exact ⟨T.1, T.2.2.2.2.2.2.1⟩

end RouteRec
